import Mathlib

/-!
Verification of the time-tick synchronization / MVCC write-ahead buffering core and of
the kafka transport client of this repository.

The kafka client (`getKafkaProducer`, `CreateProducer`, `StringToMsgID`, `BytesToMsgID`,
`EarliestMessageID`, the producer event loop) is embedded directly from the source file.
The sync-operator / inspector implementations are declared in
`internal/streamingnode/server/wal/interceptors/timetick/inspector/inspector.go` only as
interfaces; their behaviour is modelled from the specification, as marked on each
definition.
-/

/- ## Kafka producer event loop (getKafkaProducer, event goroutine) -/

/-- An event delivered on `Producer.Events()`: either a client-level `kafka.Error`
(carrying whether `IsFatal()` holds) or any other event kind. -/
inductive KafkaEvent where
  | err (code : Int) (fatal : Bool)
  | other (desc : String)
deriving DecidableEq

/-- What one iteration of the event-loop goroutine does with an event:
whether it panics (terminating the pipeline), logs at error level, or logs at info level. -/
structure EventOutcome where
  panics : Bool
  loggedError : Bool
  loggedInfo : Bool
deriving DecidableEq

/-- The body of the producer event loop: a `kafka.Error` is logged at error level and,
if fatal, the goroutine panics; every other event is logged at info level. -/
def handleProducerEvent : KafkaEvent → EventOutcome
  | KafkaEvent.err _ fatal => { panics := fatal, loggedError := true, loggedInfo := false }
  | KafkaEvent.other _ => { panics := false, loggedError := false, loggedInfo := true }

/- ## Kafka package-level producer singleton (Producer, once, getKafkaProducer, CreateProducer) -/

/-- Outcome the environment assigns to the single `kafka.NewProducer` call performed inside
the `once.Do` body: success returns a fresh handle (identified by a number), failure returns
an error message (and the package variable `Producer` is assigned nil). -/
inductive ConstructOutcome where
  | succeeds (handle : Nat)
  | fails (msg : String)
deriving DecidableEq

/-- The package-level state of the kafka client file: the `Producer` variable
(`none` models a nil pointer), the completion flag of the `once : sync.Once`,
and how many times `kafka.NewProducer` has actually run. -/
structure PackageState where
  producerVar : Option Nat
  onceDone : Bool
  newProducerCalls : Nat
deriving DecidableEq

/-- The package state at process start: `Producer` is nil and `once` has not fired. -/
def startPackageState : PackageState :=
  { producerVar := none, onceDone := false, newProducerCalls := 0 }

/-- `getKafkaProducer`: runs the `once.Do` body at most once (assigning the package-level
`Producer` and the call-local `err`), then returns `(nil, err)` when `err != nil` and
`(Producer, nil)` otherwise. Since `err` is a fresh local of every call, it is non-nil only
in the call whose invocation actually ran the body and saw it fail. Returns the new package
state, the returned `*kafka.Producer`, and the returned error. -/
def getKafkaProducer (st : PackageState) (outcome : ConstructOutcome) :
    PackageState × Option Nat × Option String :=
  if st.onceDone then
    (st, st.producerVar, none)
  else
    match outcome with
    | ConstructOutcome.succeeds h =>
        ({ producerVar := some h, onceDone := true,
           newProducerCalls := st.newProducerCalls + 1 }, some h, none)
    | ConstructOutcome.fails m =>
        ({ producerVar := none, onceDone := true,
           newProducerCalls := st.newProducerCalls + 1 }, none, some m)

/-- The `kafkaProducer` wrapper returned by `CreateProducer`: it stores the shared
`*kafka.Producer` handle `p` and the topic. -/
structure kafkaProducer where
  p : Option Nat
  topic : String
deriving DecidableEq

/-- `CreateProducer`: calls `getKafkaProducer`; on error returns `(nil, err)`, otherwise
wraps the shared handle into a `kafkaProducer` for the requested topic. -/
def CreateProducer (st : PackageState) (outcome : ConstructOutcome) (topic : String) :
    PackageState × Option kafkaProducer × Option String :=
  match getKafkaProducer st outcome with
  | (st2, _, some e) => (st2, none, some e)
  | (st2, pp, none) => (st2, some { p := pp, topic := topic }, none)

/-- Package state after a sequence of `getKafkaProducer` calls (from any `kafkaClient`
instances in the process: the `once` and `Producer` variables are package-level). -/
def runGetCalls (st : PackageState) (outs : List ConstructOutcome) : PackageState :=
  outs.foldl (fun s o => (getKafkaProducer s o).1) st

lemma getKafkaProducer_done (st : PackageState) (o : ConstructOutcome)
    (h : st.onceDone = true) : getKafkaProducer st o = (st, st.producerVar, none) := by
  simp [getKafkaProducer, h]

lemma runGetCalls_done (outs : List ConstructOutcome) (st : PackageState)
    (h : st.onceDone = true) : runGetCalls st outs = st := by
  induction outs with
  | nil => rfl
  | cons o rest ih =>
      simp only [runGetCalls, List.foldl_cons, getKafkaProducer_done st o h]
      exact ih

lemma getKafkaProducer_first (o : ConstructOutcome) :
    ((getKafkaProducer startPackageState o).1.onceDone = true) ∧
    ((getKafkaProducer startPackageState o).1.newProducerCalls = 1) := by
  cases o <;> simp [getKafkaProducer, startPackageState]

/- ## Kafka message IDs (EarliestMessageID, StringToMsgID, BytesToMsgID) -/

/-- The `kafkaID` message ID: a kafka offset stored as an int64. -/
structure kafkaID where
  messageID : Int
deriving DecidableEq

/-- The `kafka.OffsetBeginning` sentinel of the kafka client library (value -2). -/
def offsetBeginning : Int := -2

/-- `EarliestMessageID` returns the earliest-sentinel `kafkaID`. -/
def EarliestMessageID : kafkaID := { messageID := offsetBeginning }

/-- A decimal digit character maps to its value; any other character is rejected
(as by `strconv.ParseInt` in base 10). -/
def digitVal (c : Char) : Option Nat :=
  if 48 ≤ c.toNat ∧ c.toNat ≤ 57 then some (c.toNat - 48) else none

/-- Accumulating base-10 digit scan of `strconv.ParseUint`: fails on the first non-digit. -/
def parseDigits : List Char → Nat → Option Nat
  | [], acc => some acc
  | c :: cs, acc =>
    match digitVal c with
    | some d => parseDigits cs (acc * 10 + d)
    | none => none

/-- `strconv.ParseUint(s, 10, _)` digit part: the empty digit string is a syntax error;
the 64-bit range check of `ParseInt` is applied afterwards by `parseInt64`. -/
def parseUintDigits (s : List Char) : Option Nat :=
  match s with
  | [] => none
  | _ => parseDigits s 0

/-- `strconv.ParseInt(s, 10, 64)`: optional leading sign, nonempty run of decimal digits,
and the int64 range check (negative values down to -2^63, positive up to 2^63 - 1);
any violation is an error (`none`). -/
def parseInt64 (s : List Char) : Option Int :=
  match s with
  | [] => none
  | c :: rest =>
    if c = '-' then
      match parseUintDigits rest with
      | none => none
      | some u => if u ≤ 2 ^ 63 then some (-(u : Int)) else none
    else if c = '+' then
      match parseUintDigits rest with
      | none => none
      | some u => if u < 2 ^ 63 then some ((u : Int)) else none
    else
      match parseUintDigits (c :: rest) with
      | none => none
      | some u => if u < 2 ^ 63 then some ((u : Int)) else none

/-- `StringToMsgID`: parses the string with `strconv.ParseInt(id, 10, 64)`; on error
returns the error, otherwise wraps the offset into a `kafkaID`. -/
def StringToMsgID (id : List Char) : Option kafkaID :=
  match parseInt64 id with
  | none => none
  | some offset => some { messageID := offset }

/-- Modelled from the spec: `DeserializeKafkaID` (defined in a file of this repository that
is outside src/) decodes the compact little-endian 8-byte form of a kafka offset back into
an int64. -/
def DeserializeKafkaID (bytes : List Nat) : Int :=
  let u : Nat := (bytes.take 8).foldr (fun b acc => acc * 256 + b % 256) 0
  if u < 2 ^ 63 then (u : Int) else (u : Int) - 2 ^ 64

/-- `BytesToMsgID`: wraps `DeserializeKafkaID id` into a `kafkaID`, never failing. -/
def BytesToMsgID (id : List Nat) : Option kafkaID :=
  some { messageID := DeserializeKafkaID id }

/-- The decimal digit characters of `n`, most significant first (the digits that
`strconv.FormatInt` prints for a nonnegative value). -/
def natToDecChars (n : Nat) : List Char :=
  if h : n < 10 then [Char.ofNat (48 + n)]
  else natToDecChars (n / 10) ++ [Char.ofNat (48 + n % 10)]
termination_by n
decreasing_by
  exact Nat.div_lt_self (by omega) (by omega)

/-- The decimal string of an int64 as Go prints it: a minus sign followed by the digits of
the absolute value for negative numbers, the plain digits otherwise. -/
def formatInt (n : Int) : List Char :=
  if n < 0 then '-' :: natToDecChars n.natAbs else natToDecChars n.toNat

lemma digitVal_digitChar (d : Nat) (h : d < 10) : digitVal (Char.ofNat (48 + d)) = some d := by
  interval_cases d <;> decide

lemma digitChar_not_sign (d : Nat) (h : d < 10) :
    Char.ofNat (48 + d) ≠ '-' ∧ Char.ofNat (48 + d) ≠ '+' := by
  interval_cases d <;> decide

lemma parseDigits_append (l1 l2 : List Char) (acc : Nat) :
    parseDigits (l1 ++ l2) acc
      = match parseDigits l1 acc with
        | some m => parseDigits l2 m
        | none => none := by
  induction l1 generalizing acc with
  | nil => simp [parseDigits]
  | cons c cs ih =>
      simp only [List.cons_append, parseDigits]
      cases digitVal c with
      | some d => exact ih (acc * 10 + d)
      | none => rfl

lemma natToDecChars_head (n : Nat) :
    ∃ d rest, d < 10 ∧ natToDecChars n = Char.ofNat (48 + d) :: rest := by
  induction n using Nat.strong_induction_on with
  | _ n ih =>
      by_cases h : n < 10
      · exact ⟨n, [], h, by rw [natToDecChars]; simp [h]⟩
      · obtain ⟨d, rest, hd, heq⟩ := ih (n / 10) (Nat.div_lt_self (by omega) (by omega))
        refine ⟨d, rest ++ [Char.ofNat (48 + n % 10)], hd, ?_⟩
        rw [natToDecChars]
        simp only [h, dite_false, heq, List.cons_append]

lemma parseDigits_natToDecChars (n : Nat) :
    ∀ acc : Nat, parseDigits (natToDecChars n) acc
      = some (acc * 10 ^ (natToDecChars n).length + n) := by
  induction n using Nat.strong_induction_on with
  | _ n ih =>
      intro acc
      by_cases h : n < 10
      · rw [natToDecChars]
        simp only [h, dite_true, parseDigits, digitVal_digitChar n h, List.length_cons,
          List.length_nil, pow_one]
        norm_num
      · have hlt : n / 10 < n := Nat.div_lt_self (by omega) (by omega)
        rw [natToDecChars]
        simp only [h, dite_false]
        rw [parseDigits_append, ih (n / 10) hlt acc]
        simp only [parseDigits, digitVal_digitChar (n % 10) (Nat.mod_lt n (by omega)),
          List.length_append, List.length_cons, List.length_nil]
        congr 1
        have h2 : n / 10 * 10 + n % 10 = n := by omega
        calc (acc * 10 ^ (natToDecChars (n / 10)).length + n / 10) * 10 + n % 10
            = acc * (10 ^ (natToDecChars (n / 10)).length * 10)
                + (n / 10 * 10 + n % 10) := by ring
          _ = acc * 10 ^ ((natToDecChars (n / 10)).length + (0 + 1)) + n := by
              rw [h2]
              congr 1

lemma parseUintDigits_cons (c : Char) (cs : List Char) :
    parseUintDigits (c :: cs) = parseDigits (c :: cs) 0 := rfl

lemma parseUintDigits_natToDecChars (n : Nat) :
    parseUintDigits (natToDecChars n) = some n := by
  obtain ⟨d, rest, hd, heq⟩ := natToDecChars_head n
  have h0 := parseDigits_natToDecChars n 0
  rw [heq] at h0 ⊢
  rw [parseUintDigits_cons]
  simpa using h0

/-- C8: message-ID serialization round-trips. For every int64 offset, `StringToMsgID` of its
decimal string returns the `kafkaID` with that offset and no error; `StringToMsgID` errors on
every string that `strconv.ParseInt(·, 10, 64)` rejects; `BytesToMsgID b` returns the
`kafkaID` carrying `DeserializeKafkaID b` with no error; and `EarliestMessageID` is the
`kafka.OffsetBeginning` sentinel. -/
theorem kafka_msgid_serialization :
    (∀ n : Int, -(2 ^ 63) ≤ n → n ≤ 2 ^ 63 - 1 →
        StringToMsgID (formatInt n) = some { messageID := n })
    ∧ (∀ s : List Char, parseInt64 s = none → StringToMsgID s = none)
    ∧ (∀ b : List Nat, BytesToMsgID b = some { messageID := DeserializeKafkaID b })
    ∧ EarliestMessageID = { messageID := offsetBeginning } := by
  refine ⟨?_, ?_, fun _ => rfl, rfl⟩
  · intro n hlo hhi
    by_cases hneg : n < 0
    · have hfmt : formatInt n = '-' :: natToDecChars n.natAbs := by
        simp [formatInt, hneg]
      have habs2 : n.natAbs ≤ 2 ^ 63 := by omega
      have hval : -((n.natAbs : Nat) : Int) = n := by omega
      have hp64 : parseInt64 ('-' :: natToDecChars n.natAbs) = some n := by
        simp only [parseInt64, parseUintDigits_natToDecChars, reduceIte, if_pos habs2, hval]
      rw [hfmt]
      unfold StringToMsgID
      rw [hp64]
    · have hfmt : formatInt n = natToDecChars n.toNat := by
        simp [formatInt, hneg]
      obtain ⟨d, rest, hd, heq⟩ := natToDecChars_head n.toNat
      obtain ⟨hm, hp⟩ := digitChar_not_sign d hd
      have hrange : n.toNat < 2 ^ 63 := by omega
      have hval : ((n.toNat : Nat) : Int) = n := by omega
      have hp64 : parseInt64 (natToDecChars n.toNat) = some n := by
        rw [heq]
        simp only [parseInt64, if_neg hm, if_neg hp]
        rw [← heq, parseUintDigits_natToDecChars]
        show (if n.toNat < 2 ^ 63 then some ((n.toNat : Nat) : Int) else none) = some n
        rw [if_pos hrange, hval]
      rw [hfmt]
      unfold StringToMsgID
      rw [hp64]
  · intro s hs
    unfold StringToMsgID
    rw [hs]

/-- Witness for C8 at the concrete offset -42. -/
theorem kafka_msgid_serialization_witness :
    StringToMsgID (formatInt (-42)) = some { messageID := -42 } :=
  kafka_msgid_serialization.1 (-42) (by decide) (by decide)

/-- C7: a fatal `kafka.Error` event received from the producer is logged and then escalated
by panicking (terminating the event-loop goroutine and thus the pipeline), a non-fatal
`kafka.Error` is only logged at error level and terminates nothing, every other event is
only logged at info level; the loop panics exactly on fatal error events. -/
theorem fatal_transport_error_escalates :
    (∀ code : Int, handleProducerEvent (KafkaEvent.err code true)
        = { panics := true, loggedError := true, loggedInfo := false })
    ∧ (∀ code : Int, handleProducerEvent (KafkaEvent.err code false)
        = { panics := false, loggedError := true, loggedInfo := false })
    ∧ (∀ d : String, handleProducerEvent (KafkaEvent.other d)
        = { panics := false, loggedError := false, loggedInfo := true })
    ∧ (∀ e : KafkaEvent, (handleProducerEvent e).panics = true
        ↔ ∃ code : Int, e = KafkaEvent.err code true) := by
  refine ⟨fun _ => rfl, fun _ => rfl, fun _ => rfl, fun e => ?_⟩
  cases e with
  | err code fatal =>
      cases fatal <;> simp [handleProducerEvent]
  | other d => simp [handleProducerEvent]

/-- C9: the producer handle is a package-level singleton under one-time initialization.
Over every sequence of `getKafkaProducer`/`CreateProducer` calls from process start,
`kafka.NewProducer` runs at most once (exactly once as soon as one call happened); once the
`once` fired, later calls change nothing and hand back the stored package-level handle; and
every successful `CreateProducer` wraps exactly the package-level `Producer` handle,
sharing it by reference. -/
theorem kafka_producer_singleton :
    (∀ outs : List ConstructOutcome,
        (runGetCalls startPackageState outs).newProducerCalls ≤ 1)
    ∧ (∀ outs : List ConstructOutcome, outs ≠ [] →
        (runGetCalls startPackageState outs).newProducerCalls = 1)
    ∧ (∀ st : PackageState, ∀ o : ConstructOutcome, st.onceDone = true →
        (getKafkaProducer st o).1 = st ∧ (getKafkaProducer st o).2.1 = st.producerVar)
    ∧ (∀ st : PackageState, ∀ o : ConstructOutcome, ∀ t : String, ∀ kp : kafkaProducer,
        (CreateProducer st o t).2.1 = some kp →
        kp.p = (CreateProducer st o t).1.producerVar) := by
  have hrun : ∀ outs : List ConstructOutcome, ∀ o : ConstructOutcome,
      runGetCalls startPackageState (o :: outs)
        = (getKafkaProducer startPackageState o).1 := by
    intro outs o
    have h1 := (getKafkaProducer_first o).1
    simp only [runGetCalls, List.foldl_cons]
    exact runGetCalls_done outs _ h1
  refine ⟨?_, ?_, ?_, ?_⟩
  · intro outs
    cases outs with
    | nil => simp [runGetCalls, startPackageState]
    | cons o rest =>
        rw [hrun rest o]
        exact le_of_eq (getKafkaProducer_first o).2
  · intro outs hne
    cases outs with
    | nil => exact absurd rfl hne
    | cons o rest =>
        rw [hrun rest o]
        exact (getKafkaProducer_first o).2
  · intro st o h
    rw [getKafkaProducer_done st o h]
    exact ⟨rfl, rfl⟩
  · intro st o t kp hok
    have hh : (getKafkaProducer st o).2.1 = (getKafkaProducer st o).1.producerVar := by
      by_cases hd : st.onceDone = true
      · rw [getKafkaProducer_done st o hd]
      · have hd2 : st.onceDone = false := by
          cases h : st.onceDone
          · rfl
          · exact absurd h hd
        cases o <;> simp [getKafkaProducer, hd2]
    rcases hg : getKafkaProducer st o with ⟨st2, pp, err⟩
    rw [hg] at hh
    simp only at hh
    cases err with
    | some e =>
        simp only [CreateProducer, hg] at hok
        exact absurd hok (by simp)
    | none =>
        simp only [CreateProducer, hg, Option.some.injEq] at hok ⊢
        rw [← hok, hh]

/-- Witness for C9 at a concrete call sequence: two calls, the second construction outcome
being irrelevant, still construct exactly one producer. -/
theorem kafka_producer_singleton_witness :
    (runGetCalls startPackageState
        [ConstructOutcome.succeeds 7, ConstructOutcome.succeeds 9]).newProducerCalls = 1 :=
  kafka_producer_singleton.2.1
    [ConstructOutcome.succeeds 7, ConstructOutcome.succeeds 9] (by simp)

/-- C10: if the first-ever construction fails, the first caller receives `(nil, err)`; every
later `getKafkaProducer` call (whatever its environment outcome, since the `once` body never
runs again) returns the nil package-level `Producer` with a nil error, and `CreateProducer`
then succeeds, returning a `kafkaProducer` that wraps a nil handle. -/
theorem kafka_failed_first_construction_swallowed :
    ∀ m : String, ∀ outs : List ConstructOutcome, ∀ o : ConstructOutcome, ∀ t : String,
      (getKafkaProducer startPackageState (ConstructOutcome.fails m)).2.1 = none
      ∧ (getKafkaProducer startPackageState (ConstructOutcome.fails m)).2.2 = some m
      ∧ (getKafkaProducer
            (runGetCalls (getKafkaProducer startPackageState (ConstructOutcome.fails m)).1 outs) o)
          = ((runGetCalls (getKafkaProducer startPackageState (ConstructOutcome.fails m)).1 outs),
             none, none)
      ∧ (CreateProducer
            (runGetCalls (getKafkaProducer startPackageState (ConstructOutcome.fails m)).1 outs) o t)
          = ((runGetCalls (getKafkaProducer startPackageState (ConstructOutcome.fails m)).1 outs),
             some { p := none, topic := t }, none) := by
  intro m outs o t
  have hfail : (getKafkaProducer startPackageState (ConstructOutcome.fails m))
      = ({ producerVar := none, onceDone := true, newProducerCalls := 1 }, none, some m) := by
    simp [getKafkaProducer, startPackageState]
  have hst : runGetCalls (getKafkaProducer startPackageState (ConstructOutcome.fails m)).1 outs
      = { producerVar := none, onceDone := true, newProducerCalls := 1 } := by
    rw [hfail]
    exact runGetCalls_done outs _ rfl
  refine ⟨by rw [hfail], by rw [hfail], ?_, ?_⟩
  · rw [hst]
    exact getKafkaProducer_done _ o rfl
  · rw [hst, CreateProducer, getKafkaProducer_done _ o rfl]

/- ## Time-tick sync core: MVCCManager (modelled from the spec; only the interface of the
sync operator is declared in src/, in inspector.go) -/

/-- The immutable channel identity used as registry key: name plus assignment term. -/
structure PChannelInfo where
  name : String
  term : Int
deriving DecidableEq

/-- Modelled from the spec: the MVCCManager of one channel holds the single watermark
time tick (the mvcc package is outside src/). -/
structure MVCCManager where
  watermark : Nat
deriving DecidableEq

/-- Modelled from the spec: GetWatermark returns the latest confirmed watermark. -/
def MVCCManager.GetWatermark (m : MVCCManager) : Nat := m.watermark

/-- Modelled from the spec: Advance(tick) fails with an invariant-violation error whenever
tick is not strictly greater than the current watermark; otherwise it sets the watermark. -/
def MVCCManager.Advance (m : MVCCManager) (tick : Nat) : Except String MVCCManager :=
  if m.watermark < tick then Except.ok { watermark := tick }
  else Except.error "invariant violation: time tick regression"

/-- The watermark history induced by a sequence of Advance attempts: a failed attempt
leaves the manager unchanged (regression is rejected, never applied). -/
def applyAdvances : MVCCManager → List Nat → MVCCManager
  | m, [] => m
  | m, t :: ts =>
    match m.Advance t with
    | Except.ok m2 => applyAdvances m2 ts
    | Except.error _ => applyAdvances m ts

/- ## Time-tick sync core: WriteAheadBuffer (modelled from the spec; the wab package is
outside src/) -/

/-- Modelled from the spec: one buffered entry — time tick, message ID of the appended
record, and its size in bytes. -/
structure WABEntry where
  timeTick : Nat
  messageID : Int
  sizeBytes : Nat
deriving DecidableEq

/-- Modelled from the spec: the bounded, time-ordered buffer of one channel. `entries` is
oldest first; `capacity` is the configured retention size bound (maximum entry count). -/
structure WriteAheadBuffer where
  entries : List WABEntry
  capacity : Nat
deriving DecidableEq

/-- Modelled from the spec: retention eviction — drop the oldest entries while the buffer
is over its size bound. -/
def WriteAheadBuffer.evictOldest (b : WriteAheadBuffer) : WriteAheadBuffer :=
  { b with entries := b.entries.drop (b.entries.length - b.capacity) }

/-- The tick of the most recently appended entry, if any. -/
def WriteAheadBuffer.lastTick (b : WriteAheadBuffer) : Option Nat :=
  b.entries.getLast?.map WABEntry.timeTick

/-- Modelled from the spec: Append appends only if the entry's tick is strictly greater
than the last appended entry's tick (an empty buffer accepts any tick), otherwise fails
with an ordering-violation error; on success retention eviction is applied. -/
def WriteAheadBuffer.Append (b : WriteAheadBuffer) (e : WABEntry) :
    Except String WriteAheadBuffer :=
  match b.entries.getLast? with
  | some last =>
      if last.timeTick < e.timeTick then
        Except.ok (WriteAheadBuffer.evictOldest { b with entries := b.entries ++ [e] })
      else Except.error "ordering violation: time tick not increasing"
  | none => Except.ok (WriteAheadBuffer.evictOldest { b with entries := b.entries ++ [e] })

/-- The buffer invariant of the spec: entries are strictly increasing by time tick. -/
def TicksIncreasing (l : List WABEntry) : Prop :=
  l.Pairwise (fun a b => a.timeTick < b.timeTick)

/- ## Time-tick sync core: SyncOperator (modelled from the spec; inspector.go declares only
the TimeTickSyncOperator interface, whose Sync(ctx, forcePersisted) returns no values) -/

/-- Result of appending the marker record through the transport. -/
inductive TransportResult where
  | acked (msgID : Int)
  | failed (msg : String)
deriving DecidableEq

/-- State owned by one sync operator: its channel, its MVCCManager, its buffer. -/
structure SyncOpState where
  channel : PChannelInfo
  mvcc : MVCCManager
  wab : WriteAheadBuffer
deriving DecidableEq

/-- Modelled from the spec: step 1 of the Sync algorithm — a new tick strictly greater than
the current watermark, sourced from the cluster clock, ties broken by incrementing past
the prior watermark. -/
def computeNewTick (watermark clock : Nat) : Nat := max clock (watermark + 1)

/-- Modelled from the spec: the Sync algorithm (steps 1-4). The transport is the
environment: it maps the marker tick to an ack or a failure. On transport failure, and on
the (never legitimately reachable) internal invariant violations, the state is returned
unchanged together with the failure; on success the MVCCManager is advanced and the marker
entered into the buffer, and no failure is produced. -/
def syncAttempt (st : SyncOpState) (clock : Nat) (transport : Nat → TransportResult)
    (forcePersisted : Bool) : SyncOpState × Option String :=
  let tick := computeNewTick st.mvcc.watermark clock
  match transport tick with
  | TransportResult.failed msg => (st, some msg)
  | TransportResult.acked msgID =>
      match st.mvcc.Advance tick with
      | Except.error msg => (st, some msg)
      | Except.ok m2 =>
          match st.wab.Append { timeTick := tick, messageID := msgID, sizeBytes := 1 } with
          | Except.error msg => (st, some msg)
          | Except.ok w2 => ({ st with mvcc := m2, wab := w2 }, none)

/-- The caller-visible Sync of the TimeTickSyncOperator interface declared in inspector.go:
`Sync(ctx context.Context, forcePersisted bool)` returns no values, so the caller observes
only the operator state; the failure of the attempt, if any, is dropped (handled
internally), not returned. -/
def Sync (st : SyncOpState) (clock : Nat) (transport : Nat → TransportResult)
    (forcePersisted : Bool) : SyncOpState :=
  (syncAttempt st clock transport forcePersisted).1

/-- A concrete operator state for counterexamples: fresh channel, zero watermark, empty
buffer of capacity 16. -/
def sampleOpState : SyncOpState :=
  { channel := { name := "ch-1", term := 1 },
    mvcc := { watermark := 0 },
    wab := { entries := [], capacity := 16 } }

/-- A transport whose append always fails with a broker error. -/
def failingTransportA : Nat → TransportResult :=
  fun _ => TransportResult.failed "broker unreachable"

/-- A transport whose append always fails with a timeout, distinct from the broker error. -/
def failingTransportB : Nat → TransportResult :=
  fun _ => TransportResult.failed "delivery timeout"

/- ## Time-tick sync core: Inspector registry (modelled from the spec; inspector.go
declares only the TimeTickSyncInspector interface) -/

/-- Modelled from the spec: the inspector state — the registry mapping channels to their
sync operators (identified by a number), the coalesced set of channels with a pending
trigger notification, and how many Sync executions the background workers have run. -/
structure InspectorState where
  registry : List (PChannelInfo × Nat)
  pending : List PChannelInfo
  executedSyncs : Nat
deriving DecidableEq

/-- Modelled from the spec: MustGetOperator either finds the channel's operator or signals
an unrecoverable invariant violation (a panic), never a recoverable not-found result. -/
inductive LookupOutcome where
  | found (operatorId : Nat)
  | fatalViolation
deriving DecidableEq

/-- Modelled from the spec: MustGetOperator looks the channel up in the registry and
panics (fatal invariant violation) when it is absent. -/
def MustGetOperator (st : InspectorState) (ch : PChannelInfo) : LookupOutcome :=
  match st.registry.find? (fun p => p.1 == ch) with
  | some p => LookupOutcome.found p.2
  | none => LookupOutcome.fatalViolation

/-- Modelled from the spec: RegisterSyncOperator adds the operator under its channel;
registering a channel already present is a configuration error. -/
def RegisterSyncOperator (st : InspectorState) (ch : PChannelInfo) (operatorId : Nat) :
    Except String InspectorState :=
  match st.registry.find? (fun p => p.1 == ch) with
  | some _ => Except.error "configuration error: channel already registered"
  | none => Except.ok { st with registry := (ch, operatorId) :: st.registry }

/-- Modelled from the spec: UnregisterSyncOperator removes the channel's entry, releasing
it from future scheduling. -/
def UnregisterSyncOperator (st : InspectorState) (ch : PChannelInfo) : InspectorState :=
  { st with registry := st.registry.filter (fun p => !(p.1 == ch)) }

/-- Modelled from the spec: TriggerSync looks the channel up; an unknown channel is a
silent no-op (no error, no fatal fault, no state change); a known channel only has its
pending notification recorded (coalesced) — the sync itself runs later on a background
worker, never inside TriggerSync. -/
def TriggerSync (st : InspectorState) (ch : PChannelInfo) (forcePersisted : Bool) :
    InspectorState :=
  match st.registry.find? (fun p => p.1 == ch) with
  | none => st
  | some _ =>
      { st with pending := if ch ∈ st.pending then st.pending else ch :: st.pending }

/- ## Time-tick sync core: per-channel dispatch discipline (modelled from the spec) -/

/-- Modelled from the spec: scheduling state of one channel — whether a Sync execution is
in flight, whether a coalesced trigger is pending, and counts of begun and completed Sync
executions. -/
structure ChannelSched where
  inFlight : Bool
  pending : Bool
  started : Nat
  finished : Nat
deriving DecidableEq

/-- An event on a channel's dispatch path: an external or periodic trigger, a worker
beginning a Sync, or an in-flight Sync completing. -/
inductive SchedEvent where
  | trigger (forcePersisted : Bool)
  | startSync
  | finishSync
deriving DecidableEq

/-- Modelled from the spec: the per-channel dispatch discipline. A trigger only marks the
channel pending (coalescing concurrent triggers); a worker begins a Sync only when one is
pending and none is in flight; completion clears the in-flight flag. -/
def schedStep (s : ChannelSched) : SchedEvent → ChannelSched
  | SchedEvent.trigger _ => { s with pending := true }
  | SchedEvent.startSync =>
      if s.pending = true ∧ s.inFlight = false then
        { s with pending := false, inFlight := true, started := s.started + 1 }
      else s
  | SchedEvent.finishSync =>
      if s.inFlight = true then { s with inFlight := false, finished := s.finished + 1 }
      else s

/-- The scheduling state after a sequence of events. -/
def schedRun (s : ChannelSched) (evs : List SchedEvent) : ChannelSched :=
  evs.foldl schedStep s

/-- The scheduling state of a freshly registered channel. -/
def initSched : ChannelSched :=
  { inFlight := false, pending := false, started := 0, finished := 0 }

/-- At-most-one-in-flight invariant: the number of begun-but-unfinished Sync executions is
0 or 1, and it is 1 exactly when the in-flight flag is set. -/
def SchedInv (s : ChannelSched) : Prop :=
  s.finished ≤ s.started ∧ s.started ≤ s.finished + 1
    ∧ (s.inFlight = true ↔ s.started = s.finished + 1)

lemma syncAttempt_of_failed (st : SyncOpState) (clock : Nat)
    (transport : Nat → TransportResult) (fp : Bool) (msg : String)
    (h : transport (computeNewTick st.mvcc.watermark clock) = TransportResult.failed msg) :
    syncAttempt st clock transport fp = (st, some msg) := by
  simp only [syncAttempt, h]

/-- C1 counterexample: the declared signature `Sync(ctx context.Context, forcePersisted
bool)` in inspector.go returns no values, so a transport failure is not returned to the
caller. Concretely: against a transport failing with "broker unreachable" the attempt does
fail, yet the caller-visible result of Sync is just the unchanged operator state, identical
to the result under a differently-failing transport — the two distinct failures are
indistinguishable to the caller, so no failure value reaches it. -/
theorem sync_failure_not_returned_to_caller_cex :
    (syncAttempt sampleOpState 5 failingTransportA true).2 = some "broker unreachable"
    ∧ Sync sampleOpState 5 failingTransportA true = sampleOpState
    ∧ Sync sampleOpState 5 failingTransportA true = Sync sampleOpState 5 failingTransportB true
    ∧ failingTransportA 6 ≠ failingTransportB 6 :=
  ⟨rfl, rfl, rfl, by decide⟩

/-- C1 (amended): for every transport that fails the marker append, the sync attempt leaves
all observable state unchanged — the MVCCManager watermark returned by GetWatermark is the
same before and after, and the WriteAheadBuffer is not mutated; the failure is surfaced
only internally (Sync's declared signature returns nothing to the caller), and the next
periodic or triggered sync retries. -/
theorem sync_transport_failure_preserves_state :
    ∀ st : SyncOpState, ∀ clock : Nat, ∀ transport : Nat → TransportResult, ∀ fp : Bool,
      ∀ msg : String,
      transport (computeNewTick st.mvcc.watermark clock) = TransportResult.failed msg →
      syncAttempt st clock transport fp = (st, some msg)
      ∧ Sync st clock transport fp = st
      ∧ (Sync st clock transport fp).mvcc.GetWatermark = st.mvcc.GetWatermark
      ∧ (Sync st clock transport fp).wab = st.wab := by
  intro st clock transport fp msg h
  have h1 := syncAttempt_of_failed st clock transport fp msg h
  have h2 : Sync st clock transport fp = st := by
    unfold Sync
    rw [h1]
  exact ⟨h1, h2, by rw [h2], by rw [h2]⟩

/-- Witness for C1's amended theorem against an always-failing transport. -/
theorem sync_transport_failure_preserves_state_witness :
    syncAttempt sampleOpState 9 failingTransportA false
      = (sampleOpState, some "broker unreachable") :=
  (sync_transport_failure_preserves_state sampleOpState 9 failingTransportA false
    "broker unreachable" rfl).1

/-- C2: watermarks never regress. Over any sequence of Advance attempts GetWatermark is
non-decreasing; Advance(tick) fails with an invariant-violation error whenever tick is not
strictly greater than the current watermark; a successful Advance moves the watermark
strictly up, exactly to the tick; and every successful sync attempt yields a state whose
watermark is strictly greater than the prior one. -/
theorem mvcc_watermark_monotonic :
    (∀ m : MVCCManager, ∀ ticks : List Nat,
        m.GetWatermark ≤ (applyAdvances m ticks).GetWatermark)
    ∧ (∀ m : MVCCManager, ∀ tick : Nat, ¬ m.GetWatermark < tick →
        ∃ msg, m.Advance tick = Except.error msg)
    ∧ (∀ m : MVCCManager, ∀ tick : Nat, ∀ m2 : MVCCManager,
        m.Advance tick = Except.ok m2 →
        m.GetWatermark < m2.GetWatermark ∧ m2.GetWatermark = tick)
    ∧ (∀ st : SyncOpState, ∀ clock : Nat, ∀ transport : Nat → TransportResult, ∀ fp : Bool,
        ∀ st2 : SyncOpState,
        syncAttempt st clock transport fp = (st2, none) →
        st.mvcc.GetWatermark < st2.mvcc.GetWatermark) := by
  refine ⟨?_, ?_, ?_, ?_⟩
  · intro m ticks
    induction ticks generalizing m with
    | nil => exact le_refl _
    | cons t ts ih =>
        by_cases hlt : m.watermark < t
        · have hadv : m.Advance t = Except.ok { watermark := t } := by
            rw [MVCCManager.Advance, if_pos hlt]
          have : applyAdvances m (t :: ts) = applyAdvances { watermark := t } ts := by
            simp only [applyAdvances, hadv]
          rw [this]
          exact le_trans (le_of_lt hlt) (ih { watermark := t })
        · have hadv : m.Advance t
              = Except.error "invariant violation: time tick regression" := by
            rw [MVCCManager.Advance, if_neg hlt]
          have : applyAdvances m (t :: ts) = applyAdvances m ts := by
            simp only [applyAdvances, hadv]
          rw [this]
          exact ih m
  · intro m tick h
    simp only [MVCCManager.GetWatermark] at h
    exact ⟨"invariant violation: time tick regression", by rw [MVCCManager.Advance, if_neg h]⟩
  · intro m tick m2 h
    rw [MVCCManager.Advance] at h
    by_cases hlt : m.watermark < tick
    · rw [if_pos hlt] at h
      injection h with h
      rw [← h]
      exact ⟨hlt, rfl⟩
    · rw [if_neg hlt] at h
      exact absurd h (by simp)
  · intro st clock transport fp st2 hsync
    have hmax := le_max_right clock (st.mvcc.watermark + 1)
    have htick : st.mvcc.watermark < computeNewTick st.mvcc.watermark clock := by
      rw [computeNewTick]
      omega
    have hadv : st.mvcc.Advance (computeNewTick st.mvcc.watermark clock)
        = Except.ok { watermark := computeNewTick st.mvcc.watermark clock } := by
      rw [MVCCManager.Advance, if_pos htick]
    simp only [syncAttempt] at hsync
    cases htr : transport (computeNewTick st.mvcc.watermark clock) with
    | failed msg =>
        rw [htr] at hsync
        simp at hsync
    | acked msgID =>
        rw [htr, hadv] at hsync
        simp only at hsync
        cases happ : st.wab.Append
            { timeTick := computeNewTick st.mvcc.watermark clock,
              messageID := msgID, sizeBytes := 1 } with
        | error msg =>
            rw [happ] at hsync
            simp at hsync
        | ok w2 =>
            rw [happ] at hsync
            simp only [Prod.mk.injEq] at hsync
            rw [← hsync.1]
            exact htick

/-- Witness for C2: Advance at a tick equal to the watermark is rejected. -/
theorem mvcc_watermark_monotonic_witness :
    ∃ msg, MVCCManager.Advance { watermark := 5 } 5 = Except.error msg :=
  mvcc_watermark_monotonic.2.1 { watermark := 5 } 5 (by decide)

lemma append_ok_elim (b : WriteAheadBuffer) (e : WABEntry) (b2 : WriteAheadBuffer)
    (h : b.Append e = Except.ok b2) :
    b2 = WriteAheadBuffer.evictOldest { b with entries := b.entries ++ [e] }
    ∧ ∀ last ∈ b.entries.getLast?, last.timeTick < e.timeTick := by
  unfold WriteAheadBuffer.Append at h
  cases hl : b.entries.getLast? with
  | none =>
      rw [hl] at h
      simp only at h
      injection h with h
      refine ⟨h.symm, ?_⟩
      intro x hx
      simp at hx
  | some last =>
      rw [hl] at h
      simp only at h
      by_cases hc : last.timeTick < e.timeTick
      · rw [if_pos hc] at h
        injection h with h
        refine ⟨h.symm, ?_⟩
        intro x hx
        simp only [Option.mem_def, Option.some.injEq] at hx
        rw [← hx]
        exact hc
      · rw [if_neg hc] at h
        exact absurd h (by simp)

lemma ticksIncreasing_append_last (l : List WABEntry) (e : WABEntry)
    (hs : TicksIncreasing l) (hl : ∀ last ∈ l.getLast?, last.timeTick < e.timeTick) :
    TicksIncreasing (l ++ [e]) := by
  haveI : IsTrans WABEntry (fun a b => a.timeTick < b.timeTick) :=
    ⟨fun a b c h1 h2 => lt_trans h1 h2⟩
  unfold TicksIncreasing at hs ⊢
  rw [← List.chain'_iff_pairwise] at hs ⊢
  rw [List.chain'_append]
  refine ⟨hs, List.chain'_singleton e, ?_⟩
  intro x hx y hy
  simp only [List.head?_cons, Option.mem_def, Option.some.injEq] at hy
  rw [← hy]
  exact hl x hx

lemma ticksIncreasing_drop (l : List WABEntry) (k : Nat) (hs : TicksIncreasing l) :
    TicksIncreasing (l.drop k) :=
  List.Pairwise.sublist (List.drop_sublist k l) hs

/-- C3: the WriteAheadBuffer contract. Append fails with an ordering-violation error when
the entry's tick is not strictly greater than the last appended tick; on success the buffer
keeps its capacity, never exceeds the configured size bound, and its content is exactly the
appended sequence with the oldest entries dropped (FIFO eviction); on a buffer satisfying
the strictly-increasing invariant the result is again strictly increasing by timeTick,
contains no duplicate timeTicks, and every evicted entry is older (smaller tick) than every
retained entry. -/
theorem wab_append_contract :
    (∀ b : WriteAheadBuffer, ∀ e : WABEntry, ∀ last : Nat,
        b.lastTick = some last → ¬ last < e.timeTick →
        ∃ msg, b.Append e = Except.error msg)
    ∧ (∀ b : WriteAheadBuffer, ∀ e : WABEntry, ∀ b2 : WriteAheadBuffer,
        b.Append e = Except.ok b2 →
        b2.capacity = b.capacity
        ∧ b2.entries.length ≤ b.capacity
        ∧ b2.entries
            = (b.entries ++ [e]).drop ((b.entries ++ [e]).length - b.capacity))
    ∧ (∀ b : WriteAheadBuffer, ∀ e : WABEntry, ∀ b2 : WriteAheadBuffer,
        TicksIncreasing b.entries → b.Append e = Except.ok b2 →
        TicksIncreasing b2.entries
        ∧ b2.entries.Pairwise (fun x y => x.timeTick ≠ y.timeTick)
        ∧ ∀ x ∈ (b.entries ++ [e]).take ((b.entries ++ [e]).length - b.capacity),
            ∀ y ∈ b2.entries, x.timeTick < y.timeTick) := by
  refine ⟨?_, ?_, ?_⟩
  · intro b e last hlast hnot
    unfold WriteAheadBuffer.lastTick at hlast
    cases hl : b.entries.getLast? with
    | none =>
        rw [hl] at hlast
        simp at hlast
    | some le =>
        rw [hl] at hlast
        simp only [Option.map_some'] at hlast
        injection hlast with hlast
        refine ⟨"ordering violation: time tick not increasing", ?_⟩
        unfold WriteAheadBuffer.Append
        rw [hl]
        simp only
        rw [if_neg]
        intro hc
        exact hnot (hlast ▸ hc)
  · intro b e b2 h
    obtain ⟨hb2, -⟩ := append_ok_elim b e b2 h
    subst hb2
    unfold WriteAheadBuffer.evictOldest
    refine ⟨rfl, ?_, rfl⟩
    simp only [List.length_drop]
    omega
  · intro b e b2 hs h
    obtain ⟨hb2, hlast⟩ := append_ok_elim b e b2 h
    have hsorted : TicksIncreasing (b.entries ++ [e]) :=
      ticksIncreasing_append_last _ _ hs hlast
    subst hb2
    unfold WriteAheadBuffer.evictOldest
    simp only
    refine ⟨ticksIncreasing_drop _ _ hsorted,
      List.Pairwise.imp (fun hxy => Nat.ne_of_lt hxy) (ticksIncreasing_drop _ _ hsorted), ?_⟩
    intro x hx y hy
    have hp : ((b.entries ++ [e]).take ((b.entries ++ [e]).length - b.capacity)
        ++ (b.entries ++ [e]).drop ((b.entries ++ [e]).length - b.capacity)).Pairwise
          (fun a c => a.timeTick < c.timeTick) := by
      rw [List.take_append_drop]
      exact hsorted
    exact (List.pairwise_append.mp hp).2.2 x hx y hy

/-- Witness for C3: appending tick 2 to a full capacity-1 buffer holding tick 1 succeeds
and evicts the oldest entry, leaving the buffer within its bound. -/
theorem wab_append_contract_witness :
    WriteAheadBuffer.Append
        { entries := [{ timeTick := 1, messageID := 10, sizeBytes := 1 }], capacity := 1 }
        { timeTick := 2, messageID := 11, sizeBytes := 1 }
      = Except.ok
          { entries := [{ timeTick := 2, messageID := 11, sizeBytes := 1 }], capacity := 1 }
    ∧ ({ entries := [{ timeTick := 2, messageID := 11, sizeBytes := 1 }],
         capacity := 1 } : WriteAheadBuffer).entries.length ≤ 1 :=
  ⟨by rfl,
    (wab_append_contract.2.1
      { entries := [{ timeTick := 1, messageID := 10, sizeBytes := 1 }], capacity := 1 }
      { timeTick := 2, messageID := 11, sizeBytes := 1 }
      { entries := [{ timeTick := 2, messageID := 11, sizeBytes := 1 }], capacity := 1 }
      (by rfl)).2.1⟩

/-- C4: MustGetOperator contract. After successfully registering channel C, MustGetOperator
returns its operator; after then unregistering C, MustGetOperator on C is a fatal invariant
violation (a panic), never a recoverable not-found result; in general MustGetOperator on
any channel absent from the registry signals the fatal fault. -/
theorem must_get_operator_contract :
    (∀ st : InspectorState, ∀ ch : PChannelInfo, ∀ opId : Nat, ∀ st2 : InspectorState,
        RegisterSyncOperator st ch opId = Except.ok st2 →
        MustGetOperator st2 ch = LookupOutcome.found opId
        ∧ MustGetOperator (UnregisterSyncOperator st2 ch) ch
            = LookupOutcome.fatalViolation)
    ∧ (∀ st : InspectorState, ∀ ch : PChannelInfo,
        st.registry.find? (fun p => p.1 == ch) = none →
        MustGetOperator st ch = LookupOutcome.fatalViolation) := by
  have hfilter : ∀ (l : List (PChannelInfo × Nat)) (ch : PChannelInfo),
      (l.filter (fun p => !(p.1 == ch))).find? (fun p => p.1 == ch) = none := by
    intro l ch
    rw [List.find?_eq_none]
    intro x hx
    have := (List.mem_filter.mp hx).2
    simp only [Bool.not_eq_true'] at this
    simp [this]
  refine ⟨?_, ?_⟩
  · intro st ch opId st2 hreg
    have hfind : st.registry.find? (fun p => p.1 == ch) = none := by
      cases hf : st.registry.find? (fun p => p.1 == ch) with
      | none => rfl
      | some p =>
          unfold RegisterSyncOperator at hreg
          rw [hf] at hreg
          exact absurd hreg (by simp)
    unfold RegisterSyncOperator at hreg
    rw [hfind] at hreg
    simp only at hreg
    injection hreg with hreg
    subst hreg
    constructor
    · unfold MustGetOperator
      rw [List.find?_cons_of_pos _ (by simp)]
    · unfold MustGetOperator UnregisterSyncOperator
      simp only [hfilter]
  · intro st ch hfind
    unfold MustGetOperator
    rw [hfind]

/-- Witness for C4: registering channel ("c", 1) with operator 3 into the empty inspector,
then unregistering it, makes MustGetOperator fatal; while registered it returns operator 3. -/
theorem must_get_operator_contract_witness :
    MustGetOperator
        { registry := [({ name := "c", term := 1 }, 3)], pending := [], executedSyncs := 0 }
        { name := "c", term := 1 }
      = LookupOutcome.found 3
    ∧ MustGetOperator
        (UnregisterSyncOperator
          { registry := [({ name := "c", term := 1 }, 3)], pending := [], executedSyncs := 0 }
          { name := "c", term := 1 })
        { name := "c", term := 1 }
      = LookupOutcome.fatalViolation :=
  must_get_operator_contract.1
    { registry := [], pending := [], executedSyncs := 0 }
    { name := "c", term := 1 } 3
    { registry := [({ name := "c", term := 1 }, 3)], pending := [], executedSyncs := 0 }
    (by rfl)

/-- C5: TriggerSync on a channel unknown to the registry is a silent no-op — it returns
(total, no fatal fault) and changes nothing; and TriggerSync never runs the sync itself:
on every call it leaves the executed-sync count and the registry untouched and at most
records the channel's pending notification, the asynchronous signal picked up later by the
background workers. -/
theorem trigger_sync_unknown_noop_and_nonblocking :
    (∀ st : InspectorState, ∀ ch : PChannelInfo, ∀ fp : Bool,
        st.registry.find? (fun p => p.1 == ch) = none →
        TriggerSync st ch fp = st)
    ∧ (∀ st : InspectorState, ∀ ch : PChannelInfo, ∀ fp : Bool,
        (TriggerSync st ch fp).executedSyncs = st.executedSyncs
        ∧ (TriggerSync st ch fp).registry = st.registry
        ∧ ∀ c : PChannelInfo, c ∈ (TriggerSync st ch fp).pending → c = ch ∨ c ∈ st.pending) := by
  refine ⟨?_, ?_⟩
  · intro st ch fp hfind
    unfold TriggerSync
    rw [hfind]
  · intro st ch fp
    unfold TriggerSync
    cases hf : st.registry.find? (fun p => p.1 == ch) with
    | none => exact ⟨rfl, rfl, fun c hc => Or.inr hc⟩
    | some p =>
        refine ⟨rfl, rfl, ?_⟩
        intro c hc
        simp only at hc
        by_cases hmem : ch ∈ st.pending
        · rw [if_pos hmem] at hc
          exact Or.inr hc
        · rw [if_neg hmem] at hc
          cases hc with
          | head => exact Or.inl rfl
          | tail _ h => exact Or.inr h

/-- Witness for C5: triggering a channel on an empty registry changes nothing. -/
theorem trigger_sync_unknown_noop_witness :
    TriggerSync { registry := [], pending := [], executedSyncs := 0 }
        { name := "c", term := 1 } true
      = { registry := [], pending := [], executedSyncs := 0 } :=
  trigger_sync_unknown_noop_and_nonblocking.1
    { registry := [], pending := [], executedSyncs := 0 }
    { name := "c", term := 1 } true (by rfl)

lemma schedStep_started_le (s : ChannelSched) (e : SchedEvent) :
    s.started ≤ (schedStep s e).started := by
  cases e with
  | trigger fp => exact le_refl _
  | startSync =>
      simp only [schedStep]
      by_cases hc : s.pending = true ∧ s.inFlight = false
      · rw [if_pos hc]
        exact Nat.le_succ _
      · rw [if_neg hc]
  | finishSync =>
      simp only [schedStep]
      by_cases hc : s.inFlight = true
      · rw [if_pos hc]
      · rw [if_neg hc]

lemma schedRun_started_le (evs : List SchedEvent) (s : ChannelSched) :
    s.started ≤ (schedRun s evs).started := by
  induction evs generalizing s with
  | nil => exact le_refl _
  | cons e rest ih => exact le_trans (schedStep_started_le s e) (ih (schedStep s e))

lemma schedStep_inv (s : ChannelSched) (e : SchedEvent) (h : SchedInv s) :
    SchedInv (schedStep s e) := by
  obtain ⟨inF, pen, sta, fin⟩ := s
  have h1 : fin ≤ sta := h.1
  have h2 : sta ≤ fin + 1 := h.2.1
  have h3 : inF = true ↔ sta = fin + 1 := h.2.2
  cases e with
  | trigger fp => exact ⟨h1, h2, h3⟩
  | startSync =>
      simp only [schedStep]
      by_cases hc : pen = true ∧ inF = false
      · rw [if_pos hc]
        have hne : sta ≠ fin + 1 := by
          intro hh
          rw [hc.2] at h3
          exact absurd (h3.mpr hh) (by simp)
      
        refine ⟨?_, ?_, ?_⟩
        · show fin ≤ sta + 1
          omega
        · show sta + 1 ≤ fin + 1
          omega
        · show true = true ↔ sta + 1 = fin + 1
          refine ⟨fun _ => by omega, fun _ => rfl⟩
      · rw [if_neg hc]
        exact ⟨h1, h2, h3⟩
  | finishSync =>
      simp only [schedStep]
      by_cases hc : inF = true
      · rw [if_pos hc]
        have hsf : sta = fin + 1 := h3.mp hc
        refine ⟨?_, ?_, ?_⟩
        · show fin + 1 ≤ sta
          omega
        · show sta ≤ fin + 1 + 1
          omega
        · show false = true ↔ sta = fin + 1 + 1
          constructor
          · intro hh
            exact absurd hh (by simp)
          · intro hh
            exfalso
            omega
      · rw [if_neg hc]
        exact ⟨h1, h2, h3⟩

lemma schedInv_run (evs : List SchedEvent) (s : ChannelSched) (h : SchedInv s) :
    SchedInv (schedRun s evs) := by
  induction evs generalizing s with
  | nil => exact h
  | cons e rest ih => exact ih (schedStep s e) (schedStep_inv s e h)

lemma schedStep_trigger_trigger (s : ChannelSched) (fp fp2 : Bool) :
    schedStep (schedStep s (SchedEvent.trigger fp)) (SchedEvent.trigger fp2)
      = schedStep s (SchedEvent.trigger fp2) := by
  obtain ⟨inF, pen, sta, fin⟩ := s
  rfl

lemma schedRun_replicate_trigger (m : Nat) :
    ∀ s : ChannelSched, ∀ fp : Bool, ∀ rest : List SchedEvent,
    schedRun s (List.replicate (m + 1) (SchedEvent.trigger fp) ++ rest)
      = schedRun s (SchedEvent.trigger fp :: rest) := by
  induction m with
  | zero =>
      intro s fp rest
      rfl
  | succ k ih =>
      intro s fp rest
      have h2 : schedRun s (List.replicate (k + 1 + 1) (SchedEvent.trigger fp) ++ rest)
          = schedRun (schedStep s (SchedEvent.trigger fp))
              (List.replicate (k + 1) (SchedEvent.trigger fp) ++ rest) := rfl
      rw [h2, ih (schedStep s (SchedEvent.trigger fp)) fp rest]
      have h3 : schedRun (schedStep s (SchedEvent.trigger fp)) (SchedEvent.trigger fp :: rest)
          = schedRun (schedStep (schedStep s (SchedEvent.trigger fp)) (SchedEvent.trigger fp))
              rest := rfl
      rw [h3, schedStep_trigger_trigger]
      rfl

lemma pending_until_start (evs : List SchedEvent) :
    ∀ s : ChannelSched, s.pending = true → (schedRun s evs).pending = false →
    s.started < (schedRun s evs).started := by
  induction evs with
  | nil =>
      intro s hp hq
      rw [show schedRun s [] = s from rfl] at hq
      rw [hq] at hp
      exact absurd hp (by simp)
  | cons e rest ih =>
      intro s hp hq
      cases e with
      | trigger fp =>
          exact ih (schedStep s (SchedEvent.trigger fp)) rfl hq
      | startSync =>
          by_cases hf : s.inFlight = false
          · have hlt : s.started < (schedStep s SchedEvent.startSync).started := by
              simp only [schedStep]
              rw [if_pos ⟨hp, hf⟩]
              exact Nat.lt_succ_self _
            exact lt_of_lt_of_le hlt
              (schedRun_started_le rest (schedStep s SchedEvent.startSync))
          · have hstep : schedStep s SchedEvent.startSync = s := by
              simp only [schedStep]
              rw [if_neg]
              intro hcc
              exact hf hcc.2
            have hq2 : (schedRun s rest).pending = false := by
              have hq3 : (schedRun (schedStep s SchedEvent.startSync) rest).pending
                  = false := hq
              rw [hstep] at hq3
              exact hq3
            have hlt := ih s hp hq2
            have hgoal : s.started
                < (schedRun (schedStep s SchedEvent.startSync) rest).started := by
              rw [hstep]
              exact hlt
            exact hgoal
      | finishSync =>
          by_cases hc : s.inFlight = true
          · have hstep : schedStep s SchedEvent.finishSync
                = { s with inFlight := false, finished := s.finished + 1 } := by
              simp only [schedStep]
              rw [if_pos hc]
            have hp2 : (schedStep s SchedEvent.finishSync).pending = true := by
              rw [hstep]
              exact hp
            have := ih (schedStep s SchedEvent.finishSync) hp2 hq
            have hsame : (schedStep s SchedEvent.finishSync).started = s.started := by
              rw [hstep]
            rw [hsame] at this
            exact this
          · have hstep : schedStep s SchedEvent.finishSync = s := by
              simp only [schedStep]
              rw [if_neg hc]
            have hp2 : (schedStep s SchedEvent.finishSync).pending = true := by
              rw [hstep]
              exact hp
            have := ih (schedStep s SchedEvent.finishSync) hp2 hq
            have hsame : (schedStep s SchedEvent.finishSync).started = s.started := by
              rw [hstep]
            rw [hsame] at this
            exact this

/-- C6: the per-channel dispatch discipline. Along every event trace from a fresh channel
the at-most-one-in-flight invariant holds (begun minus completed Sync executions never
exceeds one, so no two Sync executions for the channel overlap); any burst of N ≥ 1
triggers is coalesced — the trace behaves exactly as if a single trigger had arrived, so
the number of executed syncs is bounded independently of N; and no trigger is permanently
lost: whenever a pending trigger is later observed cleared, a further Sync execution has
started in between. -/
theorem sync_scheduling_coalesced :
    (∀ evs : List SchedEvent, SchedInv (schedRun initSched evs))
    ∧ (∀ s : ChannelSched, ∀ n : Nat, ∀ fp : Bool, ∀ rest : List SchedEvent, 1 ≤ n →
        schedRun s (List.replicate n (SchedEvent.trigger fp) ++ rest)
          = schedRun s (SchedEvent.trigger fp :: rest))
    ∧ (∀ s : ChannelSched, ∀ evs : List SchedEvent, s.pending = true →
        (schedRun s evs).pending = false → s.started < (schedRun s evs).started) := by
  refine ⟨?_, ?_, ?_⟩
  · intro evs
    exact schedInv_run evs initSched ⟨by decide, by decide, by decide⟩
  · intro s n fp rest hn
    cases n with
    | zero => omega
    | succ m => exact schedRun_replicate_trigger m s fp rest
  · intro s evs hp hq
    exact pending_until_start evs s hp hq

/-- Witness for C6: three triggers followed by a worker dispatch behave exactly like a
single trigger followed by the dispatch. -/
theorem sync_scheduling_coalesced_witness :
    schedRun initSched
        (List.replicate 3 (SchedEvent.trigger true) ++ [SchedEvent.startSync])
      = schedRun initSched (SchedEvent.trigger true :: [SchedEvent.startSync]) :=
  sync_scheduling_coalesced.2.1 initSched 3 true [SchedEvent.startSync] (by omega)
